import Mathlib

/-!
Verification of the attribute-driven authorization engine of mcp-gateway.

The definitions below are a shallow embedding of the Go source:
  * storage types and the in-memory Directory Store
    (internal/storage: role/permission records, attribute-to-roles records,
    the memory backend keyed by Go maps, here modelled as association lists);
  * the permission decider and claim resolver of the auth provider
    (internal/auth/base.go and its attribute-to-roles revision:
    `VerifyPermissions`, `attributeToRoles`, `lookup`, `appendRoles`,
    `match`);
  * the scope-combination variant of the oauth provider
    (`getRequiredScopes`, `hasAllScopes`, `hasAnyScope`,
    `hasRequiredPermission`), together with a model of the Go standard
    library glob matcher it calls;
  * the dispatch fragment of the HTTP auth middleware
    (internal/server/middleware.go) that parses the tool name and invokes
    the decider.

Go maps are embedded as association lists looked up with `List.lookup`
(first binding wins; Go map keys are unique so this is faithful), Go's
fallible calls as `Option`/`Except`, and the concurrent role fan-out as a
fold that fails when any single fetch fails, exactly as `errgroup.Wait`
reports the first error.  Iteration order of Go maps is unspecified; the
embedding fixes list order, and the order-independence theorems below show
the authorization decision does not depend on that choice.
-/

namespace MCPGateway

/-- Embeds `storage.PermissionConfig`.  The Go field `ObjectType` has the
string-based type `storage.ObjectType` (values `"tools"` and `"*"`); the
decider immediately casts it back with `string(p.ObjectType)`, so it is
embedded as a plain string. -/
structure PermissionConfig where
  objectType : String
  proxy : String
  objectName : String
deriving DecidableEq

/-- Embeds `storage.RoleConfig`: a named bundle of permission entries. -/
structure RoleConfig where
  name : String
  permissions : List PermissionConfig
deriving DecidableEq

/-- Embeds `storage.AttributeToRolesConfig`. -/
structure AttributeToRolesConfig where
  attributeKey : String
  attributeValue : String
  roles : List String
deriving DecidableEq

/-- Embeds the state of `storage.MemoryStorage`: the `roles` map keyed by
role name and the `attributeToRoles` map keyed by the string
`fmt.Sprintf("%s:%s", key, value)`.  The `proxies` map is omitted: none of
the operations modelled here reads or writes it (it is consulted only by
`SetRole`). -/
structure MemoryStorage where
  roles : List (String × RoleConfig)
  attributeToRoles : List (String × AttributeToRolesConfig)
deriving DecidableEq

/-- Embeds the `fmt.Sprintf("%s:%s", attributeKey, attributeValue)` key
under which `MemoryStorage` stores a mapping. -/
def attrKey (attributeKey attributeValue : String) : String :=
  attributeKey ++ ":" ++ attributeValue

/-- Embeds `MemoryStorage.GetRole`: map lookup by role name; the Go
`"role not found"` error is embedded as `none`. -/
def getRole (s : MemoryStorage) (role : String) : Option RoleConfig :=
  s.roles.lookup role

/-- Embeds `MemoryStorage.GetAttributeToRoles`: map lookup under
`attrKey`; the Go `"attribute to roles not found"` error is `none`. -/
def getAttributeToRoles (s : MemoryStorage) (attributeKey attributeValue : String) :
    Option AttributeToRolesConfig :=
  s.attributeToRoles.lookup (attrKey attributeKey attributeValue)

/-- Embeds `MemoryStorage.SetAttributeToRoles`: the write is rejected when
the `(key, value)` pair is already mapped, and when some referenced role
name is absent from the `roles` map (the loop returns on the first missing
role); otherwise the mapping is stored.  Note the Go code iterates
`attributeToRoles.Roles` and never checks that the list is non-empty. -/
def setAttributeToRoles (s : MemoryStorage) (cfg : AttributeToRolesConfig) :
    Except String MemoryStorage :=
  if (s.attributeToRoles.lookup (attrKey cfg.attributeKey cfg.attributeValue)).isSome then
    .error "attribute to roles already exists"
  else
    match cfg.roles.find? (fun role => (s.roles.lookup role).isNone) with
    | some _ => .error "role not found"
    | none =>
        .ok { s with
              attributeToRoles :=
                s.attributeToRoles ++ [(attrKey cfg.attributeKey cfg.attributeValue, cfg)] }

/-- Embeds the shape of a Go `interface{}` claim value as the closed tagged
variant the resolver's type switch distinguishes: a string, a boolean, a
`[]string`, a `[]interface{}` (each element carried here as its
`fmt.Sprint` default string form, the only observation the resolver makes
of it), or any other shape. -/
inductive ClaimValue where
  | str : String → ClaimValue
  | boolean : Bool → ClaimValue
  | strList : List String → ClaimValue
  | anyList : List String → ClaimValue
  | other : ClaimValue
deriving DecidableEq

/-- Embeds `BaseProvider.match`: the single wildcard token `"*"` matches
anything, otherwise exact string equality.  (`match` is a Lean keyword,
hence the longer name.) -/
def matchWildcard (pattern value : String) : Bool :=
  pattern == "*" || pattern == value

/-- Embeds `BaseProvider.lookup`: query the store for the mapping of one
`(claim, value)` pair; a missing mapping or an empty role list contributes
no roles. -/
def lookup (store : MemoryStorage) (claim value : String) : List String :=
  match getAttributeToRoles store claim value with
  | none => []
  | some mapping => if mapping.roles.isEmpty then [] else mapping.roles

/-- Embeds `BaseProvider.appendRoles`: insertion of each role into the
`out` set (`map[string]struct{}`), modelled as append-if-absent so the
accumulator stays duplicate-free. -/
def appendRoles (dst : List String) (roles : List String) : List String :=
  roles.foldl (fun d r => if r ∈ d then d else d ++ [r]) dst

/-- Embeds one arm of the type switch in `BaseProvider.attributeToRoles`:
how a single claim entry updates the accumulated role set.  A string and a
boolean contribute one lookup; both list shapes contribute one lookup per
element; any other shape only logs and leaves the set unchanged. -/
def processClaim (store : MemoryStorage) (out : List String) (claim : String) :
    ClaimValue → List String
  | .str v => appendRoles out (lookup store claim v)
  | .boolean v => appendRoles out (lookup store claim (if v then "true" else "false"))
  | .strList v => v.foldl (fun o s => appendRoles o (lookup store claim s)) out
  | .anyList v => v.foldl (fun o s => appendRoles o (lookup store claim s)) out
  | .other => out

/-- Embeds `BaseProvider.attributeToRoles` (line-identical to the older
`claimsToRoles` of internal/auth/base.go, whose error result is always
`nil`): fold the claim entries into a deduplicated role set. -/
def attributeToRoles (store : MemoryStorage) (claims : List (String × ClaimValue)) :
    List String :=
  claims.foldl (fun out kv => processClaim store out kv.1 kv.2) []

/-- Embeds the `errgroup` fan-out of `VerifyPermissions`: every role name
is fetched, and the first failing `GetRole` makes the whole group fail
(`g.Wait` returns that error), discarding any sibling results. -/
def fetchRoles (store : MemoryStorage) : List String →
    Option (List (String × List PermissionConfig))
  | [] => some []
  | r :: rest =>
    match getRole store r with
    | none => none
    | some role =>
      match fetchRoles store rest with
      | none => none
      | some l => some ((r, role.permissions) :: l)

/-- Embeds the final loop of `VerifyPermissions`: the request is granted as
soon as one fetched role has one entry whose three fields all match. -/
def permissionLoop (objectType proxy objectName : String)
    (list : List (String × List PermissionConfig)) : Bool :=
  list.any (fun r =>
    r.2.any (fun p =>
      matchWildcard p.objectType objectType &&
      matchWildcard p.proxy proxy &&
      matchWildcard p.objectName objectName))

/-- Embeds the tail of `VerifyPermissions` after claim resolution: the
empty-role-set early return, the parallel fetch, the fail-closed branch on
a fetch error, and the permission loop. -/
def resolveAndEvaluate (store : MemoryStorage) (objectType proxy objectName : String)
    (roles : List String) : Bool :=
  if roles.isEmpty then false
  else
    match fetchRoles store roles with
    | none => false
    | some list => permissionLoop objectType proxy objectName list

/-- Embeds `BaseProvider.VerifyPermissions(ctx, objectType, proxy,
objectName, claims)`: resolve the claims to roles, then evaluate.  The
parameter order is the implementation's, with `proxy` second and
`objectName` third. -/
def verifyPermissions (store : MemoryStorage) (objectType proxy objectName : String)
    (claims : List (String × ClaimValue)) : Bool :=
  resolveAndEvaluate store objectType proxy objectName (attributeToRoles store claims)

/-- Models Go `strings.Split` for a one-character separator (the only form
the middleware uses): the separated segments, one more segment than there
are separator occurrences, never the empty list.  The `[] => [[c]]` arm is
unreachable because the recursion never produces `[]`. -/
def splitChar (sep : Char) : List Char → List (List Char)
  | [] => [[]]
  | c :: rest =>
    if c = sep then [] :: splitChar sep rest
    else
      match splitChar sep rest with
      | [] => [[c]]
      | p :: ps => (c :: p) :: ps

/-- Models `strings.Split(s, sep)` on strings for a one-character
separator. -/
def goSplit (s : String) (sep : Char) : List String :=
  (splitChar sep s.toList).map (fun cs => String.mk cs)

/-- Embeds lines 57-63 of internal/server/middleware.go, reached once
`message.Method == "tools/call"`: `objectType` is the first `":"`-segment
of the method, the tool name is split on `":"` into `proxyName` (index 0)
and `objectName` (index 1), and the decider is invoked positionally as
`VerifyPermissions(ctx, objectType, objectName, proxyName, claims)` — so
the second positional argument, bound to the implementation's `proxy`
parameter, receives `objectName`, and the third receives `proxyName`.
`none` models either the skipped check (method other than `"tools/call"`)
or the index-out-of-range panic when the tool name has no `":"`. -/
def authMiddlewareCheck (store : MemoryStorage) (method paramsName : String)
    (claims : List (String × ClaimValue)) : Option Bool :=
  if method == "tools/call" then
    let objectType := (goSplit method ':').headD ""
    match goSplit paramsName ':' with
    | proxyName :: objectName :: _ =>
        some (verifyPermissions store objectType objectName proxyName claims)
    | _ => none
  else none

/-- Models the fragment of the Go standard library matcher
`path/filepath.Match` that the scope-mode provider calls: `*` matches any
run of non-separator characters, `?` matches one non-separator character,
and every other pattern character matches itself.  Character classes and
backslash escapes of the full matcher are not modelled; the configuration
patterns relevant here (`"*"`, prefixed globs, literal tool names) use
none of them. -/
def globMatch : List Char → List Char → Bool
  | [], [] => true
  | [], _ :: _ => false
  | '*' :: ps, s =>
    globMatch ps s ||
      (match s with
       | [] => false
       | c :: rest => decide (c ≠ '/') && globMatch ('*' :: ps) rest)
  | '?' :: _, [] => false
  | '?' :: ps, c :: rest => decide (c ≠ '/') && globMatch ps rest
  | _ :: _, [] => false
  | p :: ps, c :: rest => p == c && globMatch ps rest
termination_by pattern s => (pattern.length, s.length)

/-- Models `filepath.Match` on strings (the ignored `ErrBadPattern` result
never arises for the class-free patterns modelled). -/
def pathMatch (pattern name : String) : Bool :=
  globMatch pattern.toList name.toList

/-- Embeds `BaseProvider.getRequiredScopes` of the scope-mode oauth
provider: the direct map lookup by tool name comes first; only when it
misses are the configured patterns scanned with `filepath.Match`.  The Go
pattern scan iterates the `Permissions` map in unspecified order; the
embedding scans the association list in order, which fixes one of the
admissible orders. -/
def getRequiredScopes (permissions : List (String × List String)) (toolName : String) :
    List String :=
  match permissions.lookup toolName with
  | some scopes => scopes
  | none =>
    match permissions.find? (fun p => pathMatch p.1 toolName) with
    | some p => p.2
    | none => []

/-- Embeds `BaseProvider.hasAllScopes` (AND logic): every required scope
must be among the user's scopes.  The Go code materialises the user scopes
as a `map[string]bool` before testing; membership in that set is list
membership. -/
def hasAllScopes (userScopes requiredScopes : List String) : Bool :=
  requiredScopes.all (fun requiredScope => userScopes.contains requiredScope)

/-- Embeds `BaseProvider.hasAnyScope` (OR logic): some required scope is
among the user's scopes. -/
def hasAnyScope (userScopes requiredScopes : List String) : Bool :=
  requiredScopes.any (fun requiredScope => userScopes.contains requiredScope)

/-- Embeds `BaseProvider.hasRequiredPermission`: an empty requirement is
always satisfied; mode `"all"` selects AND logic and every other mode
string selects OR logic. -/
def hasRequiredPermission (userScopes requiredScopes : List String)
    (scopeMode : String) : Bool :=
  if requiredScopes.isEmpty then true
  else if scopeMode == "all" then hasAllScopes userScopes requiredScopes
  else hasAnyScope userScopes requiredScopes

/-- Gathers, following §4.1 of the specification, the string
representations one claim value is normalized into: a string is itself, a
boolean its textual form, both list shapes one representation per element,
and any other shape none.  Used only to state theorems about
`attributeToRoles`. -/
def claimRepresentations : ClaimValue → List String
  | .str s => [s]
  | .boolean b => [if b then "true" else "false"]
  | .strList l => l
  | .anyList l => l
  | .other => []

/-- Gives the permission list a successful fetch of one role yields; used
only to state lemmas about `fetchRoles`. -/
def rolePerms (store : MemoryStorage) (r : String) : List PermissionConfig :=
  match getRole store r with
  | none => []
  | some role => role.permissions

/-- Concrete Directory Store for the middleware-dispatch theorem: one role
`r` whose only entry has wildcard object type, proxy field `"t1"` and
object-name field `"p1"`, reachable through the mapping `(g, x)`. -/
def swapStore : MemoryStorage :=
  { roles := [("r", ⟨"r", [⟨"*", "t1", "p1"⟩]⟩)],
    attributeToRoles := [("g:x", ⟨"g", "x", ["r"]⟩)] }

/-- Claim set resolving to role `r` in `swapStore`. -/
def swapClaims : List (String × ClaimValue) := [("g", .str "x")]

/-- Concrete Directory Store for the P7 example: a mapping exists only for
`("Groups", "group1")` and yields `{"R1"}`. -/
def p7Store : MemoryStorage :=
  { roles := [("R1", ⟨"R1", [⟨"tools", "*", "*"⟩]⟩)],
    attributeToRoles := [("Groups:group1", ⟨"Groups", "group1", ["R1"]⟩)] }

/-- Concrete Directory Store with a dangling role reference: the mapping
`(g, x)` names roles `A` and `B`, the store holds a fully wildcarded role
`A`, and role `B` does not exist. -/
def brokenRefStore : MemoryStorage :=
  { roles := [("A", ⟨"A", [⟨"*", "*", "*"⟩]⟩)],
    attributeToRoles := [("g:x", ⟨"g", "x", ["A", "B"]⟩)] }

theorem mem_appendRoles {a : String} (dst roles : List String) :
    a ∈ appendRoles dst roles ↔ a ∈ dst ∨ a ∈ roles := by
  induction roles generalizing dst with
  | nil => simp [appendRoles]
  | cons r rs ih =>
    show a ∈ appendRoles (if r ∈ dst then dst else dst ++ [r]) rs ↔ _
    rw [ih]
    by_cases h : r ∈ dst <;> simp [h, List.mem_cons] <;> aesop

theorem nodup_appendRoles {dst : List String} (roles : List String)
    (h : dst.Nodup) : (appendRoles dst roles).Nodup := by
  induction roles generalizing dst with
  | nil => exact h
  | cons r rs ih =>
    show (appendRoles (if r ∈ dst then dst else dst ++ [r]) rs).Nodup
    by_cases hr : r ∈ dst
    · simpa [hr] using ih h
    · refine ih ?_
      simp [hr, List.nodup_append, h]

theorem mem_foldl_appendRoles {a : String} (f : String → List String)
    (l : List String) (out : List String) :
    a ∈ l.foldl (fun o s => appendRoles o (f s)) out ↔
      a ∈ out ∨ ∃ s ∈ l, a ∈ f s := by
  induction l generalizing out with
  | nil => simp
  | cons x xs ih =>
    simp only [List.foldl_cons]
    rw [ih, mem_appendRoles]
    simp only [List.exists_mem_cons_iff]
    aesop

theorem nodup_foldl_appendRoles {out : List String} (f : String → List String)
    (l : List String) (h : out.Nodup) :
    (l.foldl (fun o s => appendRoles o (f s)) out).Nodup := by
  induction l generalizing out with
  | nil => exact h
  | cons x xs ih => exact ih (nodup_appendRoles _ h)

theorem mem_processClaim {a : String} (store : MemoryStorage) (out : List String)
    (claim : String) (v : ClaimValue) :
    a ∈ processClaim store out claim v ↔
      a ∈ out ∨ ∃ s ∈ claimRepresentations v, a ∈ lookup store claim s := by
  cases v with
  | str s => simp [processClaim, claimRepresentations, mem_appendRoles]
  | boolean b => simp [processClaim, claimRepresentations, mem_appendRoles]
  | strList l => simpa [claimRepresentations] using
      mem_foldl_appendRoles (fun s => lookup store claim s) l out
  | anyList l => simpa [claimRepresentations] using
      mem_foldl_appendRoles (fun s => lookup store claim s) l out
  | other => simp [processClaim, claimRepresentations]

theorem nodup_processClaim {out : List String} (store : MemoryStorage)
    (claim : String) (v : ClaimValue) (h : out.Nodup) :
    (processClaim store out claim v).Nodup := by
  cases v with
  | str s => exact nodup_appendRoles _ h
  | boolean b => exact nodup_appendRoles _ h
  | strList l => exact nodup_foldl_appendRoles (fun s => lookup store claim s) l h
  | anyList l => exact nodup_foldl_appendRoles (fun s => lookup store claim s) l h
  | other => exact h

theorem mem_foldl_processClaim {a : String} (store : MemoryStorage)
    (claims : List (String × ClaimValue)) (out : List String) :
    a ∈ claims.foldl (fun o kv => processClaim store o kv.1 kv.2) out ↔
      a ∈ out ∨ ∃ kv ∈ claims, ∃ s ∈ claimRepresentations kv.2, a ∈ lookup store kv.1 s := by
  induction claims generalizing out with
  | nil => simp
  | cons kv kvs ih =>
    simp only [List.foldl_cons]
    rw [ih, mem_processClaim]
    simp only [List.exists_mem_cons_iff]
    aesop

theorem mem_attributeToRoles {a : String} (store : MemoryStorage)
    (claims : List (String × ClaimValue)) :
    a ∈ attributeToRoles store claims ↔
      ∃ kv ∈ claims, ∃ s ∈ claimRepresentations kv.2, a ∈ lookup store kv.1 s := by
  simpa [attributeToRoles] using mem_foldl_processClaim store claims []

theorem nodup_attributeToRoles (store : MemoryStorage)
    (claims : List (String × ClaimValue)) :
    (attributeToRoles store claims).Nodup := by
  have : ∀ (l : List (String × ClaimValue)) (out : List String), out.Nodup →
      (l.foldl (fun o kv => processClaim store o kv.1 kv.2) out).Nodup := by
    intro l
    induction l with
    | nil => exact fun out h => h
    | cons kv kvs ih => exact fun out h => ih _ (nodup_processClaim store kv.1 kv.2 h)
  exact this claims [] List.nodup_nil

theorem fetchRoles_eq_none_of_mem {store : MemoryStorage} {roles : List String}
    {r : String} (hmem : r ∈ roles) (hfail : getRole store r = none) :
    fetchRoles store roles = none := by
  induction roles with
  | nil => cases hmem
  | cons x xs ih =>
    rcases List.mem_cons.mp hmem with h | h
    · subst h
      simp [fetchRoles, hfail]
    · cases hx : getRole store x <;> simp [fetchRoles, hx, ih h]

theorem fetchRoles_eq_some {store : MemoryStorage} {roles : List String}
    (h : ∀ r ∈ roles, getRole store r ≠ none) :
    fetchRoles store roles = some (roles.map (fun r => (r, rolePerms store r))) := by
  induction roles with
  | nil => rfl
  | cons x xs ih =>
    cases hx : getRole store x with
    | none => exact absurd hx (h x (List.mem_cons_self x xs))
    | some role =>
      have hrest := ih (fun r hr => h r (List.mem_cons_of_mem _ hr))
      simp [fetchRoles, hx, hrest, rolePerms]

theorem fetchRoles_eq_none_iff {store : MemoryStorage} {roles : List String} :
    fetchRoles store roles = none ↔ ∃ r ∈ roles, getRole store r = none := by
  constructor
  · intro h
    by_contra hc
    push_neg at hc
    simp [fetchRoles_eq_some hc] at h
  · rintro ⟨r, hr, hnone⟩
    exact fetchRoles_eq_none_of_mem hr hnone

theorem any_perm {α : Type} {l l' : List α} (p : α → Bool) (h : l.Perm l') :
    l.any p = l'.any p := by
  induction h with
  | nil => rfl
  | cons x _ ih => simp [List.any_cons, ih]
  | swap x y l =>
    simp only [List.any_cons]
    cases p x <;> cases p y <;> simp
  | trans _ _ ih1 ih2 => rw [ih1, ih2]

theorem permissionLoop_perm (objectType proxy objectName : String)
    {l l' : List (String × List PermissionConfig)} (h : l.Perm l') :
    permissionLoop objectType proxy objectName l =
      permissionLoop objectType proxy objectName l' :=
  any_perm _ h

theorem resolveAndEvaluate_perm (store : MemoryStorage)
    (objectType proxy objectName : String) {roles roles' : List String}
    (h : roles.Perm roles') :
    resolveAndEvaluate store objectType proxy objectName roles =
      resolveAndEvaluate store objectType proxy objectName roles' := by
  unfold resolveAndEvaluate
  have hempty : roles.isEmpty = roles'.isEmpty := by
    have := h.length_eq
    cases roles <;> cases roles' <;> simp_all
  rw [hempty]
  by_cases he : roles'.isEmpty
  · simp [he]
  · simp only [he, if_false]
    by_cases hfail : ∃ r ∈ roles', getRole store r = none
    · obtain ⟨r, hr, hnone⟩ := hfail
      rw [fetchRoles_eq_none_of_mem hr hnone,
          fetchRoles_eq_none_of_mem (h.mem_iff.mpr hr) hnone]
    · push_neg at hfail
      rw [fetchRoles_eq_some hfail,
          fetchRoles_eq_some (fun r hr => hfail r (h.mem_iff.mp hr))]
      exact permissionLoop_perm _ _ _ (h.map _)

theorem attributeToRoles_perm (store : MemoryStorage)
    {claims claims' : List (String × ClaimValue)} (h : claims.Perm claims') :
    (attributeToRoles store claims).Perm (attributeToRoles store claims') := by
  rw [List.perm_ext_iff_of_nodup (nodup_attributeToRoles _ _)
      (nodup_attributeToRoles _ _)]
  intro a
  rw [mem_attributeToRoles, mem_attributeToRoles]
  constructor <;> rintro ⟨kv, hkv, rest⟩
  · exact ⟨kv, h.mem_iff.mp hkv, rest⟩
  · exact ⟨kv, h.mem_iff.mpr hkv, rest⟩

theorem lookup_update_roles (store : MemoryStorage) (rs : List (String × RoleConfig))
    (claim value : String) :
    lookup { store with roles := rs } claim value = lookup store claim value := rfl

theorem processClaim_update_roles (store : MemoryStorage)
    (rs : List (String × RoleConfig)) (out : List String) (claim : String)
    (v : ClaimValue) :
    processClaim { store with roles := rs } out claim v =
      processClaim store out claim v := by
  cases v <;> rfl

theorem attributeToRoles_update_roles (store : MemoryStorage)
    (rs : List (String × RoleConfig)) (claims : List (String × ClaimValue)) :
    attributeToRoles { store with roles := rs } claims =
      attributeToRoles store claims := by
  have h : ∀ out : List String,
      claims.foldl (fun o kv => processClaim { store with roles := rs } o kv.1 kv.2) out =
        claims.foldl (fun o kv => processClaim store o kv.1 kv.2) out := by
    intro out
    induction claims generalizing out with
    | nil => rfl
    | cons kv kvs ih =>
      rw [List.foldl_cons, List.foldl_cons, processClaim_update_roles]
      exact ih _
  exact h []

/-- C1: for every authorization request and Directory Store state,
`VerifyPermissions` returns `true` iff some fetched role contains at least
one permission entry whose three fields each match the corresponding
request dimension, where a field matches iff it equals `"*"` or equals the
value exactly; the conjunction ranges over the three fields of one single
entry, never across entries. -/
theorem verifyPermissions_iff_exists_matching_entry (store : MemoryStorage)
    (objectType proxy objectName : String) (claims : List (String × ClaimValue)) :
    verifyPermissions store objectType proxy objectName claims = true ↔
      ∃ rp ∈ (fetchRoles store (attributeToRoles store claims)).getD [],
        ∃ p ∈ rp.2,
          (p.objectType = "*" ∨ p.objectType = objectType) ∧
          (p.proxy = "*" ∨ p.proxy = proxy) ∧
          (p.objectName = "*" ∨ p.objectName = objectName) := by
  unfold verifyPermissions resolveAndEvaluate
  cases hroles : attributeToRoles store claims with
  | nil => simp [fetchRoles]
  | cons x xs =>
    cases hf : fetchRoles store (x :: xs) with
    | none => simp
    | some l =>
      simp [permissionLoop, List.any_eq_true, matchWildcard, Bool.and_eq_true,
        Bool.or_eq_true, beq_iff_eq, and_assoc]

/-- C2: if the Directory Store's `GetRole` fails for at least one resolved
role name, `VerifyPermissions` returns `false`, regardless of what the
other resolved roles would have granted — there is no partial-success
path. -/
theorem verifyPermissions_fail_closed_on_role_fetch_failure
    (store : MemoryStorage) (objectType proxy objectName : String)
    (claims : List (String × ClaimValue)) (r : String)
    (hmem : r ∈ attributeToRoles store claims)
    (hfail : getRole store r = none) :
    verifyPermissions store objectType proxy objectName claims = false := by
  have h1 := fetchRoles_eq_none_of_mem hmem hfail
  have h2 : (attributeToRoles store claims).isEmpty = false := by
    rcases hne : attributeToRoles store claims with _ | ⟨y, ys⟩
    · rw [hne] at hmem
      cases hmem
    · rfl
  unfold verifyPermissions resolveAndEvaluate
  rw [h2, h1]
  simp

/-- C3: with an empty claim set `VerifyPermissions` returns `false` for
every Directory Store state; more generally, whenever claim resolution
yields the empty role set the result is `false` and is reached without any
role fetch — witnessed here by the result being `false` for every possible
content of the `roles` map. -/
theorem verifyPermissions_empty_claims_fail_closed :
    (∀ (store : MemoryStorage) (objectType proxy objectName : String),
        verifyPermissions store objectType proxy objectName [] = false) ∧
    (∀ (store : MemoryStorage) (objectType proxy objectName : String)
        (claims : List (String × ClaimValue)) (rs : List (String × RoleConfig)),
        attributeToRoles store claims = [] →
        verifyPermissions { store with roles := rs }
          objectType proxy objectName claims = false) := by
  constructor
  · intro store objectType proxy objectName
    rfl
  · intro store objectType proxy objectName claims rs h
    unfold verifyPermissions
    rw [attributeToRoles_update_roles, h]
    rfl

/-- Witness for C3: a store with a fully wildcarded role still denies when
the claim value matches no mapping (the second spec scenario), for any
content of the roles map. -/
theorem verifyPermissions_empty_claims_fail_closed_witness :
    verifyPermissions { roles := [], attributeToRoles := [] } "tools" "p" "t" [] = false ∧
    verifyPermissions
      { roles := [("Admin", ⟨"Admin", [⟨"*", "*", "*"⟩]⟩)],
        attributeToRoles := [("groups:Base", ⟨"groups", "Base", ["Admin"]⟩)] }
      "tools" "any-proxy" "any-tool" [("groups", .str "Engineering")] = false :=
  ⟨verifyPermissions_empty_claims_fail_closed.1 _ "tools" "p" "t",
   verifyPermissions_empty_claims_fail_closed.2
     { roles := [], attributeToRoles := [("groups:Base", ⟨"groups", "Base", ["Admin"]⟩)] }
     "tools" "any-proxy" "any-tool" [("groups", .str "Engineering")]
     [("Admin", ⟨"Admin", [⟨"*", "*", "*"⟩]⟩)] (by decide)⟩

/-- Witness for C2: in `brokenRefStore` the mapping resolves to `{A, B}`,
role `A` alone would grant everything, yet the dangling reference to `B`
makes the whole check fail closed. -/
theorem verifyPermissions_fail_closed_on_role_fetch_failure_witness :
    verifyPermissions brokenRefStore "tools" "p" "t" [("g", .str "x")] = false :=
  verifyPermissions_fail_closed_on_role_fetch_failure brokenRefStore
    "tools" "p" "t" [("g", .str "x")] "B" (by decide) (by decide)

theorem verifyPermissions_swapStore_eval (toolName proxyName : String) :
    verifyPermissions swapStore "tools/call" toolName proxyName swapClaims =
      (("t1" == toolName) && ("p1" == proxyName)) := by
  unfold verifyPermissions resolveAndEvaluate
  rw [show attributeToRoles swapStore swapClaims = ["r"] from rfl]
  rw [show fetchRoles swapStore ["r"] = some [("r", [⟨"*", "t1", "p1"⟩])] from rfl]
  simp [permissionLoop, matchWildcard]

theorem splitChar_no_sep {sep : Char} {l : List Char} (h : sep ∉ l) :
    splitChar sep l = [l] := by
  induction l with
  | nil => rfl
  | cons c cs ih =>
    have hc : ¬c = sep := fun hcs => h (hcs ▸ List.mem_cons_self c cs)
    rw [splitChar, if_neg hc, ih (fun hm => h (List.mem_cons_of_mem _ hm))]

theorem splitChar_append {sep : Char} {pn tn : List Char}
    (h1 : sep ∉ pn) (h2 : sep ∉ tn) :
    splitChar sep (pn ++ sep :: tn) = [pn, tn] := by
  induction pn with
  | nil =>
    simp [splitChar, splitChar_no_sep h2]
  | cons c cs ih =>
    have hc : ¬c = sep := fun hcs => h1 (hcs ▸ List.mem_cons_self c cs)
    rw [List.cons_append, splitChar, if_neg hc,
      ih (fun hm => h1 (List.mem_cons_of_mem _ hm))]

theorem goSplit_two_segments (proxyName toolName : String)
    (h1 : ':' ∉ proxyName.toList) (h2 : ':' ∉ toolName.toList) :
    goSplit (proxyName ++ ":" ++ toolName) ':' = [proxyName, toolName] := by
  have hdata : (proxyName ++ ":" ++ toolName).toList =
      proxyName.toList ++ ':' :: toolName.toList := by
    simp [String.toList, String.data_append]
  rw [goSplit, hdata, splitChar_append h1 h2]
  rfl

/-- C4: the middleware dispatch binds the caller's object (tool) name to
the decider's `proxy` parameter and the caller's proxy name to the
decider's `objectName` parameter, so against `swapStore` — whose single
entry has the non-wildcard, distinct fields `Proxy = "t1"` and
`ObjectName = "p1"` — a `tools/call` request for the registered tool name
`proxyName ++ ":" ++ toolName` is authorized exactly when the tool name
equals the entry's `Proxy` field and the proxy name equals the entry's
`ObjectName` field. -/
theorem middleware_binds_toolName_to_proxy_field (toolName proxyName : String)
    (h1 : ':' ∉ proxyName.toList) (h2 : ':' ∉ toolName.toList) :
    authMiddlewareCheck swapStore "tools/call" (proxyName ++ ":" ++ toolName)
        swapClaims = some true ↔
      toolName = "t1" ∧ proxyName = "p1" := by
  unfold authMiddlewareCheck
  rw [goSplit_two_segments proxyName toolName h1 h2]
  rw [if_pos (by decide)]
  show some (verifyPermissions swapStore "tools/call" toolName proxyName swapClaims) =
      some true ↔ toolName = "t1" ∧ proxyName = "p1"
  rw [verifyPermissions_swapStore_eval]
  simp only [Option.some.injEq, Bool.and_eq_true, beq_iff_eq]
  constructor <;> rintro ⟨a, b⟩ <;> exact ⟨a.symm, b.symm⟩

/-- Witness for C4: the request whose tool name is exactly the entry's
`Proxy` field `"t1"` and whose proxy name is exactly the entry's
`ObjectName` field `"p1"` is authorized. -/
theorem middleware_binds_toolName_to_proxy_field_witness :
    authMiddlewareCheck swapStore "tools/call" ("p1" ++ ":" ++ "t1")
        swapClaims = some true :=
  (middleware_binds_toolName_to_proxy_field "t1" "p1"
    (by decide) (by decide)).mpr ⟨rfl, rfl⟩

/-- C5: the claim resolver is total — it surfaces no error for any claim
set (its Lean embedding returns a plain list, as the Go function's error
result is absent from the attribute-to-roles revision and always `nil` in
the older one) — and a role is resolved exactly when some claim entry has
a representation of its shape (a string itself, a boolean its textual
form, each list element, nothing for unsupported shapes, as
`claimRepresentations` records) whose Directory Store lookup yields that
role; in particular a claim set containing only unsupported shapes
resolves to the empty role set. -/
theorem attributeToRoles_total_and_shape_representations :
    (∀ (store : MemoryStorage) (claims : List (String × ClaimValue)) (r : String),
        r ∈ attributeToRoles store claims ↔
          ∃ kv ∈ claims, ∃ s ∈ claimRepresentations kv.2, r ∈ lookup store kv.1 s) ∧
    (∀ (store : MemoryStorage) (claims : List (String × ClaimValue)),
        (∀ kv ∈ claims, claimRepresentations kv.2 = []) →
        attributeToRoles store claims = []) := by
  refine ⟨fun store claims r => mem_attributeToRoles store claims, fun store claims h => ?_⟩
  rcases hres : attributeToRoles store claims with _ | ⟨x, xs⟩
  · rfl
  · have hx : x ∈ attributeToRoles store claims := by
      rw [hres]
      exact List.mem_cons_self x xs
    rw [mem_attributeToRoles] at hx
    obtain ⟨kv, hkv, s, hs, _⟩ := hx
    rw [h kv hkv] at hs
    cases hs

/-- Witness for C5: a claim set whose only entries have unsupported shapes
resolves to the empty role set without an error. -/
theorem attributeToRoles_total_and_shape_representations_witness :
    attributeToRoles p7Store [("exp", ClaimValue.other), ("nbf", ClaimValue.other)] = [] :=
  attributeToRoles_total_and_shape_representations.2 p7Store
    [("exp", ClaimValue.other), ("nbf", ClaimValue.other)] (by decide)

/-- C6: the resolved role set is the deduplicated union over all
(claim-key, representation) pairs of the roles the Directory Store lookup
returns — membership is exactly reachability through some pair, the
result list is duplicate-free, and on the P7 example (claims
`{Groups: [group1, group2]}` with a mapping only for `(Groups, group1)`)
the result is exactly `[R1]`. -/
theorem attributeToRoles_dedup_union :
    (∀ (store : MemoryStorage) (claims : List (String × ClaimValue)) (r : String),
        r ∈ attributeToRoles store claims ↔
          ∃ kv ∈ claims, ∃ s ∈ claimRepresentations kv.2, r ∈ lookup store kv.1 s) ∧
    (∀ (store : MemoryStorage) (claims : List (String × ClaimValue)),
        (attributeToRoles store claims).Nodup) ∧
    attributeToRoles p7Store [("Groups", ClaimValue.strList ["group1", "group2"])] = ["R1"] :=
  ⟨fun store claims r => mem_attributeToRoles store claims,
   nodup_attributeToRoles, by decide⟩

/-- C7: in the scope-combination mode, with a non-empty required-scope
set, any mode string other than `"all"` grants iff the user's scope set
intersects the required set, while mode `"all"` grants iff the user's
scope set contains every required scope. -/
theorem hasRequiredPermission_any_all_semantics
    (userScopes requiredScopes : List String) (scopeMode : String)
    (hne : requiredScopes ≠ []) :
    (scopeMode = "all" →
      (hasRequiredPermission userScopes requiredScopes scopeMode = true ↔
        ∀ s ∈ requiredScopes, s ∈ userScopes)) ∧
    (scopeMode ≠ "all" →
      (hasRequiredPermission userScopes requiredScopes scopeMode = true ↔
        ∃ s ∈ requiredScopes, s ∈ userScopes)) := by
  have hempty : requiredScopes.isEmpty = false := by
    cases requiredScopes
    · exact absurd rfl hne
    · rfl
  constructor
  · intro hmode
    subst hmode
    unfold hasRequiredPermission
    rw [hempty]
    simp [hasAllScopes]
  · intro hmode
    unfold hasRequiredPermission
    rw [hempty]
    have hm : (scopeMode == "all") = false := by simp [hmode]
    rw [hm]
    simp [hasAnyScope]

/-- Witness for C7: concrete ALL and ANY decisions obtained from the
theorem. -/
theorem hasRequiredPermission_any_all_semantics_witness :
    (hasRequiredPermission ["s1", "s2"] ["s1", "s2"] "all" = true ↔
      ∀ s ∈ ["s1", "s2"], s ∈ ["s1", "s2"]) ∧
    (hasRequiredPermission ["s2"] ["s1", "s2"] "any" = true ↔
      ∃ s ∈ ["s1", "s2"], s ∈ ["s2"]) :=
  ⟨(hasRequiredPermission_any_all_semantics ["s1", "s2"] ["s1", "s2"] "all"
      (by decide)).1 rfl,
   (hasRequiredPermission_any_all_semantics ["s2"] ["s1", "s2"] "any"
      (by decide)).2 (by decide)⟩

/-- C8: when the permissions configuration has an entry under the
requested action's exact identifier, the required-scope lookup returns
that entry's scopes, even when another entry's pattern (such as `"*"`)
also matches the identifier — the pattern scan is reached only on a direct
miss. -/
theorem getRequiredScopes_exact_overrides_pattern
    (permissions : List (String × List String)) (toolName : String)
    (scopes : List String) (p : String) (ps : List String)
    (hdirect : permissions.lookup toolName = some scopes)
    (_hpat : (p, ps) ∈ permissions) (_hmatch : pathMatch p toolName = true)
    (_hne : p ≠ toolName) :
    getRequiredScopes permissions toolName = scopes := by
  unfold getRequiredScopes
  rw [hdirect]

/-- Witness for C8: with both the exact entry `tool1 ↦ [s1]` and the
wildcard entry `* ↦ [s2]` present, the lookup returns `[s1]`. -/
theorem getRequiredScopes_exact_overrides_pattern_witness :
    getRequiredScopes [("tool1", ["s1"]), ("*", ["s2"])] "tool1" = ["s1"] :=
  getRequiredScopes_exact_overrides_pattern
    [("tool1", ["s1"]), ("*", ["s2"])] "tool1" ["s1"] "*" ["s2"]
    (by decide) (by decide)
    (by
      rw [pathMatch, show "*".toList = ['*'] from rfl,
        show "tool1".toList = ['t', 'o', 'o', 'l', '1'] from rfl]
      simp [globMatch])
    (by decide)

/-- C9 counterexample: the Directory Store write accepts a mapping whose
roles set is empty — `SetAttributeToRoles` on a fresh store succeeds for
`{k, v, []}` — refuting the claim that a write succeeds only when the
roles set is non-empty. -/
theorem setAttributeToRoles_accepts_empty_roles :
    setAttributeToRoles { roles := [], attributeToRoles := [] } ⟨"k", "v", []⟩ =
      Except.ok { roles := [], attributeToRoles := [("k:v", ⟨"k", "v", []⟩)] } ∧
    (⟨"k", "v", []⟩ : AttributeToRolesConfig).roles = [] :=
  ⟨rfl, rfl⟩

/-- C9 (amended): a successful `SetAttributeToRoles` write guarantees that
every role name the mapping references exists in the store at the time of
the write; non-emptiness of the roles set is not enforced. -/
theorem setAttributeToRoles_ok_implies_roles_exist
    (s : MemoryStorage) (cfg : AttributeToRolesConfig) (s' : MemoryStorage)
    (h : setAttributeToRoles s cfg = Except.ok s') :
    ∀ r ∈ cfg.roles, (getRole s r).isSome = true := by
  intro r hr
  unfold setAttributeToRoles at h
  by_cases hdup :
      (s.attributeToRoles.lookup (attrKey cfg.attributeKey cfg.attributeValue)).isSome
  · rw [if_pos hdup] at h
    exact Except.noConfusion h
  · rw [if_neg hdup] at h
    cases hfind : cfg.roles.find? (fun role => (s.roles.lookup role).isNone) with
    | some x =>
      rw [hfind] at h
      exact Except.noConfusion h
    | none =>
      have hnone := List.find?_eq_none.mp hfind r hr
      cases ho : s.roles.lookup r with
      | none => rw [ho] at hnone; simp at hnone
      | some role => simp [getRole, ho]

/-- Witness for C9 (amended): a successful write referencing role `A`
implies `A` exists in the store. -/
theorem setAttributeToRoles_ok_implies_roles_exist_witness :
    (getRole { roles := [("A", ⟨"A", []⟩)], attributeToRoles := [] } "A").isSome = true :=
  setAttributeToRoles_ok_implies_roles_exist
    { roles := [("A", ⟨"A", []⟩)], attributeToRoles := [] }
    ⟨"k", "v", ["A"]⟩
    { roles := [("A", ⟨"A", []⟩)], attributeToRoles := [("k:v", ⟨"k", "v", ["A"]⟩)] }
    rfl "A" (by decide)

/-- C10: two `VerifyPermissions` calls with identical inputs against an
unchanged store give the same boolean; the result is invariant under
permuting the claim entries (map iteration order), under permuting the
resolved role list (fetch issuance order), and under permuting the
aggregated fetch results (completion order); the embedding's functions
return only the boolean, mutating nothing. -/
theorem verifyPermissions_order_independent :
    (∀ (store : MemoryStorage) (objectType proxy objectName : String)
        (claims : List (String × ClaimValue)),
        verifyPermissions store objectType proxy objectName claims =
          verifyPermissions store objectType proxy objectName claims) ∧
    (∀ (store : MemoryStorage) (objectType proxy objectName : String)
        (claims claims' : List (String × ClaimValue)), claims.Perm claims' →
        verifyPermissions store objectType proxy objectName claims =
          verifyPermissions store objectType proxy objectName claims') ∧
    (∀ (store : MemoryStorage) (objectType proxy objectName : String)
        (roles roles' : List String), roles.Perm roles' →
        resolveAndEvaluate store objectType proxy objectName roles =
          resolveAndEvaluate store objectType proxy objectName roles') ∧
    (∀ (objectType proxy objectName : String)
        (l l' : List (String × List PermissionConfig)), l.Perm l' →
        permissionLoop objectType proxy objectName l =
          permissionLoop objectType proxy objectName l') :=
  ⟨fun _ _ _ _ _ => rfl,
   fun store objectType proxy objectName _ _ h =>
     resolveAndEvaluate_perm store objectType proxy objectName
       (attributeToRoles_perm store h),
   fun store objectType proxy objectName _ _ h =>
     resolveAndEvaluate_perm store objectType proxy objectName h,
   fun objectType proxy objectName _ _ h =>
     permissionLoop_perm objectType proxy objectName h⟩

/-- Witness for C10: swapping two claim entries, two resolved roles, or
two aggregated fetch results leaves concrete decisions unchanged. -/
theorem verifyPermissions_order_independent_witness :
    verifyPermissions p7Store "tools" "p" "t"
        [("a", .str "x"), ("b", .boolean true)] =
      verifyPermissions p7Store "tools" "p" "t"
        [("b", .boolean true), ("a", .str "x")] ∧
    resolveAndEvaluate p7Store "tools" "p" "t" ["R1", "R2"] =
      resolveAndEvaluate p7Store "tools" "p" "t" ["R2", "R1"] ∧
    permissionLoop "tools" "p" "t" [("A", []), ("B", [⟨"*", "*", "*"⟩])] =
      permissionLoop "tools" "p" "t" [("B", [⟨"*", "*", "*"⟩]), ("A", [])] :=
  ⟨verifyPermissions_order_independent.2.1 p7Store "tools" "p" "t" _ _
     (List.Perm.swap _ _ _),
   verifyPermissions_order_independent.2.2.1 p7Store "tools" "p" "t" _ _
     (List.Perm.swap _ _ _),
   verifyPermissions_order_independent.2.2.2 "tools" "p" "t" _ _
     (List.Perm.swap _ _ _)⟩

end MCPGateway
